import Mathlib

/-!
Verification development for the ArchiveVault core (`src-tauri/src`).

Shallow embedding of three subsystems against which the claims are settled:
the docx field extractor (`docx.rs`), the tokenizer / search pipeline
(`search.rs`) and the import / delete database operations (`importer.rs`,
`db.rs`).  Rust `&str` text is modelled as `List Char` (UTF-8 byte offsets
are recovered from per-char UTF-8 sizes where the source manipulates them).
External collaborators are passed as parameters: the jieba word segmenter
(`seg`), the SQLite FTS5 MATCH evaluator (`fm`) and the SHA-256 based
attachment id (`hashFn`).
-/

namespace AV

/-- Rust `&str` contents at char granularity. -/
abbrev Text := List Char

def txt (s : String) : Text := s.toList

/-- Unicode `White_Space`, the set matched by Rust `char::is_whitespace`
and by the regex class `\s` in Unicode mode. -/
def wsChar (c : Char) : Bool :=
  c = ' ' || c = '\t' || c = '\n' || c = '\x0b' || c = '\x0c' || c = '\r' ||
  c = '\u0085' || c = ' ' || c = ' ' ||
  (0x2000 ≤ c.toNat && c.toNat ≤ 0x200A) ||
  c = ' ' || c = ' ' || c = ' ' || c = ' ' || c = '　'

/-- Rust `str::trim` (both ends, Unicode whitespace). -/
def trimChars (s : Text) : Text :=
  ((s.dropWhile wsChar).reverse.dropWhile wsChar).reverse

/-! ### Field extractor (`docx.rs`, `extract_fields_and_map`)

The label vocabulary of the regex `re_label_any` in its alternation order;
the Rust regex crate uses leftmost-first (Perl style) alternation, which the
scanner below reproduces by trying the labels in listed order at each
position and resuming after the end of a match (`captures_iter`). -/

def labelsAny : List Text :=
  [txt "指令编号", txt "编号", txt "文号", txt "发文字号", txt "文件编号", txt "指令号",
   txt "指令标题", txt "标题", txt "主题", txt "事项", txt "名称",
   txt "下发时间", txt "时间", txt "日期", txt "下发日期", txt "签发时间", txt "发文日期",
   txt "指令内容", txt "内容", txt "正文", txt "主要内容"]

/-- The vocabulary of `re_label_line` (header labels only, anchored at
line start). -/
def labelsLine : List Text :=
  [txt "指令编号", txt "编号", txt "文号", txt "发文字号", txt "文件编号", txt "指令号",
   txt "指令标题", txt "标题", txt "主题", txt "事项", txt "名称",
   txt "下发时间", txt "时间", txt "日期", txt "下发日期", txt "签发时间", txt "发文日期"]

def isColon (c : Char) : Bool := c = ':' || c = '：'

/-- Match `label \s* [:：]` at the head of `s`, trying the alternatives of
`labels` in order; returns the label together with the total matched length
(in chars).  `\s*` is greedy and a colon is not whitespace, so consuming the
maximal whitespace run and then requiring a colon is exact. -/
def matchLabelAt (labels : List Text) (s : Text) : Option (Text × Nat) :=
  labels.findSome? fun L =>
    if L.isPrefixOf s then
      let rest := s.drop L.length
      let w := (rest.takeWhile wsChar).length
      match rest.drop w with
      | c :: _ => if isColon c then some (L, L.length + w + 1) else none
      | [] => none
    else none

/-- `re_label_any.captures_iter t`: successive non-overlapping matches, each
reported as (label, start, end) in char positions, scanning left to right and
resuming after each match.  The fuel is the length of the text; every step
consumes at least one char. -/
def findHitsAux : Nat → Text → Nat → List (Text × Nat × Nat)
  | 0, _, _ => []
  | _, [], _ => []
  | fuel + 1, c :: rest, pos =>
    match matchLabelAt labelsAny (c :: rest) with
    | some (k, len) => (k, pos, pos + len) :: findHitsAux fuel ((c :: rest).drop len) (pos + len)
    | none => findHitsAux fuel rest (pos + 1)

def findHits (t : Text) : List (Text × Nat × Nat) :=
  findHitsAux t.length t 0

/-- `re_label_line.is_match t`: `^\s*` then a header label and a colon.  The
labels start with non-whitespace characters, so the greedy whitespace prefix
is exact. -/
def reLabelLineMatches (t : Text) : Bool :=
  (matchLabelAt labelsLine (t.dropWhile wsChar)).isSome

/-- Canonical field names of the extractor. -/
inductive Canon
  | instruction_no
  | title
  | issued_at
  | content
  | unknown
deriving DecidableEq

/-- The `canonical` mapping from a matched label to its field group. -/
def canonOf (key : Text) : Canon :=
  if key = txt "指令编号" ∨ key = txt "编号" ∨ key = txt "文号" ∨ key = txt "发文字号" ∨
     key = txt "文件编号" ∨ key = txt "指令号" then .instruction_no
  else if key = txt "指令标题" ∨ key = txt "标题" ∨ key = txt "主题" ∨ key = txt "事项" ∨
     key = txt "名称" then .title
  else if key = txt "下发时间" ∨ key = txt "时间" ∨ key = txt "日期" ∨ key = txt "下发日期" ∨
     key = txt "签发时间" ∨ key = txt "发文日期" then .issued_at
  else if key = txt "指令内容" ∨ key = txt "内容" ∨ key = txt "正文" ∨ key = txt "主要内容" then
    .content
  else .unknown

structure DocxBlock where
  block_id : String
  text : Text
deriving DecidableEq

/-- The character class of the second trim applied to a captured remainder:
`'\n' | '\t' | ' ' | '　'`. -/
def markChar (c : Char) : Bool := c = '\n' || c = '\t' || c = ' ' || c = '　'

def trimMarks (s : Text) : Text :=
  ((s.dropWhile markChar).reverse.dropWhile markChar).reverse

/-- The captured remainder of a hit: the text between the end of the label
match and the start of the next hit (or the end of the block), trimmed and
then trimmed of the explicit mark characters. -/
def restOf (t : Text) (endIdx nextStart : Nat) : Text :=
  trimMarks (trimChars ((t.drop endIdx).take (nextStart - endIdx)))

structure ExtractState where
  instruction_no : Text
  title : Text
  issued_at : Text
  map_instruction_no : Option String
  map_title : Option String
  map_issued_at : Option String
  content_anchor : Option String
  content_block_ids : List String
  content_lines : List Text
  collecting : Option Nat
  pending : Option (Canon × String)
deriving DecidableEq

def initState : ExtractState :=
  ⟨[], [], [], none, none, none, none, [], [], none, none⟩

/-- Processing of one hit inside the hits branch of the extractor loop
(first-writer-wins for scalar fields, pending label on an empty remainder,
content anchoring and collection start). -/
def applyHit (st : ExtractState) (i : Nat) (bid : String) (key : Text) (rest : Text) :
    ExtractState :=
  match canonOf key with
  | .instruction_no =>
      if st.instruction_no = [] then
        if rest = [] then {st with pending := some (.instruction_no, bid)}
        else {st with instruction_no := rest, map_instruction_no := some bid}
      else st
  | .title =>
      if st.title = [] then
        if rest = [] then {st with pending := some (.title, bid)}
        else {st with title := rest, map_title := some bid}
      else st
  | .issued_at =>
      if st.issued_at = [] then
        if rest = [] then {st with pending := some (.issued_at, bid)}
        else {st with issued_at := rest, map_issued_at := some bid}
      else st
  | .content =>
      let st1 := if st.content_anchor = none then {st with content_anchor := some bid} else st
      let st2 :=
        if rest = [] then st1
        else {st1 with content_block_ids := st1.content_block_ids ++ [bid],
                       content_lines := st1.content_lines ++ [rest]}
      {st2 with collecting := some i}
  | .unknown => st

def processHitsLoop (t : Text) (bid : String) (i : Nat) :
    ExtractState → List (Text × Nat × Nat) → ExtractState
  | st, [] => st
  | st, (key, _, e) :: hs =>
      let nextStart :=
        match hs with
        | (_, s2, _) :: _ => s2
        | [] => t.length
      processHitsLoop t bid i (applyHit st i bid key (restOf t e nextStart)) hs

/-- The `match st` at the bottom of the loop body (the `Collecting` arm);
the returned Bool is the `break` flag of the enclosing `for` loop. -/
def collectPart (st : ExtractState) (i : Nat) (b : DocxBlock) (t : Text) :
    ExtractState × Bool :=
  match st.collecting with
  | none => (st, false)
  | some start_idx =>
    if i ≤ start_idx then (st, false)
    else if reLabelLineMatches t then (st, true)
    else if t = [] then (st, false)
    else ({st with content_block_ids := st.content_block_ids ++ [b.block_id],
                   content_lines := st.content_lines ++ [b.text]}, false)

/-- Assignment performed when a pending label is resolved by the next block. -/
def resolvePending (st : ExtractState) (c : Canon) (v : Text) (bid : String) : ExtractState :=
  match c with
  | .instruction_no => {st with instruction_no := v, map_instruction_no := some bid}
  | .title => {st with title := v, map_title := some bid}
  | .issued_at => {st with issued_at := v, map_issued_at := some bid}
  | _ => st

def scalarVal (st : ExtractState) : Canon → Text
  | .instruction_no => st.instruction_no
  | .title => st.title
  | .issued_at => st.issued_at
  | _ => []

/-- One iteration of the extractor's `for (i, b) in blocks` loop.  The hits
are produced by the scanner in strictly increasing start order, so the
source's stable `sort_by` on start positions is the identity and is omitted.
The Bool result is the `break` flag. -/
def processBlock (st : ExtractState) (i : Nat) (b : DocxBlock) : ExtractState × Bool :=
  let t := trimChars b.text
  match findHits t with
  | [] =>
    match st.pending with
    | some (c, bid) =>
      let st1 : ExtractState := {st with pending := none}
      if t = [] then collectPart st1 i b t
      else
        match c with
        | .instruction_no =>
            if st1.instruction_no = [] then (resolvePending st1 c t bid, false)
            else collectPart st1 i b t
        | .title =>
            if st1.title = [] then (resolvePending st1 c t bid, false)
            else collectPart st1 i b t
        | .issued_at =>
            if st1.issued_at = [] then (resolvePending st1 c t bid, false)
            else collectPart st1 i b t
        | _ => collectPart st1 i b t
    | none => collectPart st i b t
  | h :: hs =>
      (processHitsLoop t b.block_id i {st with pending := none} (h :: hs), false)

def extractLoop : ExtractState → List (Nat × DocxBlock) → ExtractState
  | st, [] => st
  | st, (i, b) :: rest =>
    match processBlock st i b with
    | (st', true) => st'
    | (st', false) => extractLoop st' rest

/-- Output of the extractor; the `field_block_map_json` value of the source
is kept as its structured content (the JSON serialisation is external). -/
structure ExtractOut where
  instruction_no : Text
  title : Text
  issued_at : Text
  content : Text
  map_instruction_no : Option String
  map_title : Option String
  map_issued_at : Option String
  content_block_ids : List String
  content_anchor : Option String
deriving DecidableEq

def extract_fields_and_map (blocks : List DocxBlock) : ExtractOut :=
  let st := extractLoop initState blocks.enum
  { instruction_no := st.instruction_no
    title := st.title
    issued_at := st.issued_at
    content := List.intercalate (txt "\n") st.content_lines
    map_instruction_no := st.map_instruction_no
    map_title := st.map_title
    map_issued_at := st.map_issued_at
    content_block_ids := st.content_block_ids
    content_anchor := st.content_anchor }

/-! ### Tokenizer and highlights (`search.rs`)

The jieba word segmenter is an external collaborator; it is passed in as a
parameter `seg : Text → List Text`.  Its library contract guarantees that
every returned token is a slice of its input. -/

/-- UTF-8 size in bytes of one scalar value. -/
def charUtf8Size (c : Char) : Nat :=
  if c.toNat < 0x80 then 1
  else if c.toNat < 0x800 then 2
  else if c.toNat < 0x10000 then 3
  else 4

/-- UTF-16 size in code units of one scalar value. -/
def charUtf16Len (c : Char) : Nat :=
  if c.toNat < 0x10000 then 1 else 2

/-- Rust `str::len` (UTF-8 byte length). -/
def byteLen (s : Text) : Nat := (s.map charUtf8Size).sum

/-- `char_ngrams`: all windows of `n` scalar values. -/
def char_ngrams (t : Text) (n : Nat) : List Text :=
  if t.length < n then []
  else (List.range (t.length - n + 1)).map fun i => (t.drop i).take n

/-- `jieba_tokens`: cut, trim each token, drop empties. -/
def jieba_tokens (seg : Text → List Text) (t : Text) : List Text :=
  ((seg t).map trimChars).filter fun s => ¬s = []

/-- `build_search_text`: segmentation tokens plus bigrams plus trigrams of
the trimmed text, whitespace-only parts dropped, joined by a space. -/
def build_search_text (seg : Text → List Text) (text : Text) : Text :=
  let t := trimChars text
  if t = [] then []
  else
    let parts := jieba_tokens seg t ++ char_ngrams t 2 ++ char_ngrams t 3
    let parts := parts.filter fun s => ¬trimChars s = []
    List.intercalate (txt " ") parts

/-- Lexicographic byte order of UTF-8 strings coincides with lexicographic
scalar-value order, which this implements; used for `Vec::sort`. -/
def textLe : Text → Text → Bool
  | [], _ => true
  | _ :: _, [] => false
  | a :: as, b :: bs =>
    if a < b then true
    else if b < a then false
    else textLe as bs

def insertText (x : Text) : List Text → List Text
  | [] => [x]
  | y :: ys => if textLe x y then x :: y :: ys else y :: insertText x ys

/-- `Vec::sort` for strings (stable; result only depends on the multiset). -/
def sortTexts : List Text → List Text
  | [] => []
  | x :: xs => insertText x (sortTexts xs)

/-- `Vec::dedup`: collapse runs of adjacent equal elements. -/
def dedupAdjacent : List Text → List Text
  | [] => []
  | [x] => [x]
  | x :: y :: rest =>
    if x = y then dedupAdjacent (y :: rest) else x :: dedupAdjacent (y :: rest)

/-- `escape_fts_token`: double the inner quotes and wrap in quotes. -/
def escape_fts_token (t : Text) : Text :=
  '"' :: ((t.map fun c => if c = '"' then ['"', '"'] else [c]).flatten ++ ['"'])

/-- The token list built from a (pre-trimmed) query: segmentation tokens,
bigrams and trigrams, whitespace-only entries removed, sorted, deduped.
`build_match_query` and `search_paged_impl` both compute exactly this list. -/
def query_tokens (seg : Text → List Text) (q : Text) : List Text :=
  dedupAdjacent (sortTexts
    ((jieba_tokens seg q ++ char_ngrams q 2 ++ char_ngrams q 3).filter
      fun s => ¬trimChars s = []))

/-- `build_match_query`: the OR-joined quoted token disjunction; empty when
the trimmed query is empty (and also when no tokens survive). -/
def build_match_query (seg : Text → List Text) (query : Text) : Text :=
  let q := trimChars query
  if q = [] then []
  else List.intercalate (txt " OR ") ((query_tokens seg q).map escape_fts_token)

/-- A half-open highlight range; the Rust struct field `end` is a Lean
keyword and is called `stop` here. -/
structure Range where
  start : Nat
  stop : Nat
deriving DecidableEq

/-- `str::match_indices`: byte offsets of successive non-overlapping
occurrences of `pat`, scanning left to right and resuming after each match.
UTF-8 is self-synchronizing, so matches only occur at char boundaries and a
char-level scan with byte position accounting is exact. -/
def matchIndicesAux : Nat → Text → Text → Nat → List Nat
  | 0, _, _, _ => []
  | _, [], _, _ => []
  | fuel + 1, c :: rest, pat, bpos =>
    if pat.isPrefixOf (c :: rest) then
      bpos :: matchIndicesAux fuel ((c :: rest).drop pat.length) pat (bpos + byteLen pat)
    else matchIndicesAux fuel rest pat (bpos + charUtf8Size c)

def matchIndices (text pat : Text) : List Nat :=
  matchIndicesAux text.length text pat 0

/-- `byte_to_utf16`: walk `char_indices`, returning the UTF-16 prefix length
at the first char whose byte position reaches `byteIdx`; at the end of the
text only the exact total length is accepted (interior non-boundary offsets
give `none`). -/
def byteToUtf16Go : Text → Nat → Nat → Nat → Option Nat
  | [], b, acc, byteIdx => if byteIdx = b then some acc else none
  | c :: cs, b, acc, byteIdx =>
    if byteIdx ≤ b then some acc
    else byteToUtf16Go cs (b + charUtf8Size c) (acc + charUtf16Len c) byteIdx

def byte_to_utf16 (text : Text) (byteIdx : Nat) : Option Nat :=
  if byteLen text < byteIdx then none
  else byteToUtf16Go text 0 0 byteIdx

/-- The sort key `(start, end)` of `normalize_ranges`, as a total bool
ordering. -/
def rgLeB (a b : Range) : Bool :=
  if a.start < b.start then true
  else if b.start < a.start then false
  else a.stop ≤ b.stop

def insertRg (x : Range) : List Range → List Range
  | [] => [x]
  | y :: ys => if rgLeB x y then x :: y :: ys else y :: insertRg x ys

def sortRanges : List Range → List Range
  | [] => []
  | x :: xs => insertRg x (sortRanges xs)

/-- The merge fold of `normalize_ranges`: extend the current range while the
next one starts at or before its end, otherwise emit it. -/
def mergeGo (cur : Range) : List Range → List Range
  | [] => [cur]
  | r :: rest =>
    if r.start ≤ cur.stop then mergeGo ⟨cur.start, max cur.stop r.stop⟩ rest
    else cur :: mergeGo r rest

/-- `normalize_ranges`: sort by `(start, end)`, merge overlapping or adjacent
ranges, keep at most `max` of them. -/
def normalize_ranges (ranges : List Range) (max : Nat) : List Range :=
  match sortRanges ranges with
  | [] => []
  | cur :: rest => (mergeGo cur rest).take max

/-- The ranges contributed by one needle: each byte occurrence converted to
UTF-16 offsets, kept when non-degenerate. -/
def match_ranges (text n : Text) : List Range :=
  (matchIndices text n).filterMap fun bs =>
    match byte_to_utf16 text bs, byte_to_utf16 text (bs + byteLen n) with
    | some us, some ue => if us < ue then some ⟨us, ue⟩ else none
    | _, _ => none

/-- The needle list of `compute_highlights_utf16`: the whitespace-stripped
raw query, the segmentation tokens, the bigrams and the trigrams; sorted and
deduped. -/
def highlight_needles (seg : Text → List Text) (q : Text) : List Text :=
  let q2 := q.filter fun c => ¬wsChar c
  dedupAdjacent (sortTexts
    (((if q2 = [] then [] else [q2]) ++ jieba_tokens seg q ++
        char_ngrams q 2 ++ char_ngrams q 3).filter
      fun s => ¬trimChars s = []))

/-- `compute_highlights_utf16`. -/
def compute_highlights_utf16 (seg : Text → List Text) (text query : Text) : List Range :=
  let q := trimChars query
  if q = [] ∨ text = [] then []
  else
    normalize_ranges
      (((highlight_needles seg q).map (match_ranges text)).flatten) 20

/-! ### Search engine (`search.rs`)

The four FTS5 stores are modelled as row lists; `fm mq search_text` is the
abstract FTS5 MATCH evaluator, and rows come back in table order.  The SQL
joins on `attachments` and `annotations` are modelled by carrying the joined
columns on the row.  The Rust enum variant `Annotation` is called `AnnoHit`
here (and the annotations tables `annos_fts`), the other variants get a
`Hit` suffix. -/

structure SearchFilters where
  date_from : Option Int
  date_to : Option Int
  file_types : Option (List String)
deriving DecidableEq

structure SearchRequest where
  query : Text
  filters : Option SearchFilters
  limit : Option Nat
  offset : Option Nat
deriving DecidableEq

inductive SearchResult
  | DocxBlockHit (archive_id block_id : String) (block_text : Text)
      (highlights : List Range)
  | MainDocFieldHit (archive_id field_name : String) (source_text : Text)
      (highlights : List Range) (best_block_id : Option String)
      (best_block_highlights : Option (List Range))
  | AttachmentNameHit (archive_id file_id : String) (display_name : Text)
      (highlights : List Range)
  | AnnoHit (archive_id anno_id target_kind target_ref locator : String)
      (content : Text) (highlights : List Range)
deriving DecidableEq

structure SearchPagedResponse where
  items : List SearchResult
  has_more : Bool
  offset : Nat
  limit : Nat
deriving DecidableEq

structure BlockFtsRow where
  archive_id : String
  block_id : String
  search_text : Text
  source_text : Text
deriving DecidableEq

structure FieldFtsRow where
  archive_id : String
  field_name : String
  search_text : Text
  source_text : Text
deriving DecidableEq

/-- `attachments_fts` joined with its `attachments` row (`file_type`). -/
structure AttachFtsRow where
  archive_id : String
  file_id : String
  search_text : Text
  display_name : Text
  file_type : String
deriving DecidableEq

/-- `annotations_fts` joined with its `annotations` row; the locator JSON
text is opaque here. -/
structure AnnoFtsRow where
  archive_id : String
  anno_id : String
  search_text : Text
  target_kind : String
  target_ref : String
  locator : String
  content : Text
deriving DecidableEq

structure SearchDB where
  archives : List (String × Int)
  docx_blocks : List (String × String × Text)
  main_doc_maps : List (String × List String)
  docx_blocks_fts : List BlockFtsRow
  main_doc_fts : List FieldFtsRow
  attachments_fts : List AttachFtsRow
  annos_fts : List AnnoFtsRow
deriving DecidableEq

def i64Min : Int := -(2 ^ 63)

def i64Max : Int := 2 ^ 63 - 1

/-- `filter_archives_by_date`: empty when no bound is given, else the ids of
archives whose `zip_date` lies between the bounds (missing bound defaulting
to the i64 extremes). -/
def filter_archives_by_date (db : SearchDB) (dfrom dto : Option Int) : List String :=
  if dfrom = none ∧ dto = none then []
  else
    (db.archives.filter fun a => dfrom.getD i64Min ≤ a.2 ∧ a.2 ≤ dto.getD i64Max).map (·.1)

/-- The `allowed_archives` membership test (`HashSet::contains`). -/
def archOk (allowed : Option (List String)) (aid : String) : Bool :=
  match allowed with
  | none => true
  | some s => s.contains aid

def query_docx_blocks (fm : Text → Text → Bool) (db : SearchDB) (mq : Text)
    (limit : Nat) (allowed : Option (List String)) : List SearchResult :=
  ((((db.docx_blocks_fts.filter fun r => fm mq r.search_text).take limit).filter
      fun r => archOk allowed r.archive_id).take limit).map
    fun r => .DocxBlockHit r.archive_id r.block_id r.source_text []

def query_main_doc_fields (fm : Text → Text → Bool) (db : SearchDB) (mq : Text)
    (limit : Nat) (allowed : Option (List String)) : List SearchResult :=
  ((((db.main_doc_fts.filter fun r => fm mq r.search_text).take limit).filter
      fun r => archOk allowed r.archive_id).take limit).map
    fun r => .MainDocFieldHit r.archive_id r.field_name r.source_text [] none none

def attachTypeOk (atys : Option (List String)) (ty : String) : Bool :=
  match atys with
  | none => true
  | some l => l.contains ty

/-- `query_attachment_names`: the type filter (minus `docx_main`) and the
archive filter are both applied inside the SQL query, before its LIMIT. -/
def query_attachment_names (fm : Text → Text → Bool) (db : SearchDB) (mq : Text)
    (limit : Nat) (allowed : Option (List String)) (want : Option (List String)) :
    List SearchResult :=
  let atys := want.map fun w => w.filter fun t => ¬t = "docx_main"
  if atys = some [] then []
  else if allowed = some [] then []
  else
    (((db.attachments_fts.filter fun r =>
          fm mq r.search_text && attachTypeOk atys r.file_type &&
            archOk allowed r.archive_id).take limit).take limit).map
      fun r => .AttachmentNameHit r.archive_id r.file_id r.display_name []

/-- `query_annotations` of the source. -/
def query_annos (fm : Text → Text → Bool) (db : SearchDB) (mq : Text)
    (limit : Nat) (allowed : Option (List String)) (want : Option (List String)) :
    List SearchResult :=
  if (match want with | some w => !w.contains "annotation" | none => false) then []
  else if allowed = some [] then []
  else
    (((db.annos_fts.filter fun r =>
          fm mq r.search_text && archOk allowed r.archive_id).take limit).take limit).map
      fun r =>
        .AnnoHit r.archive_id r.anno_id r.target_kind r.target_ref r.locator r.content []

/-- The three per-kind highlight assignment loops. -/
def setHlDocx (seg : Text → List Text) (query : Text) : SearchResult → SearchResult
  | .DocxBlockHit a b t _ => .DocxBlockHit a b t (compute_highlights_utf16 seg t query)
  | r => r

def setHlAttach (seg : Text → List Text) (query : Text) : SearchResult → SearchResult
  | .AttachmentNameHit a f d _ =>
      .AttachmentNameHit a f d (compute_highlights_utf16 seg d query)
  | r => r

def setHlAnno (seg : Text → List Text) (query : Text) : SearchResult → SearchResult
  | .AnnoHit a i k rf loc ct _ =>
      .AnnoHit a i k rf loc ct (compute_highlights_utf16 seg ct query)
  | r => r

/-- The scan of `main_doc` building `content_block_map`: only archives whose
parsed content id list is non-empty are inserted. -/
def content_block_map (db : SearchDB) : List (String × List String) :=
  db.main_doc_maps.filter fun p => ¬p.2 = []

def lookupCbm (cbm : List (String × List String)) (aid : String) : Option (List String) :=
  (cbm.find? fun p => p.1 = aid).map (·.2)

def docx_hit_blocks : List SearchResult → List (String × String)
  | [] => []
  | .DocxBlockHit a b _ _ :: rest => (a, b) :: docx_hit_blocks rest
  | _ :: rest => docx_hit_blocks rest

/-- `str::matches(pat).count()`: non-overlapping occurrences. -/
def countMatchesAux : Nat → Text → Text → Nat
  | 0, _, _ => 0
  | _, [], _ => 0
  | fuel + 1, c :: rest, pat =>
    if pat.isPrefixOf (c :: rest) then
      1 + countMatchesAux fuel ((c :: rest).drop pat.length) pat
    else countMatchesAux fuel rest pat

def countMatches (text pat : Text) : Nat := countMatchesAux text.length text pat

/-- The `SELECT block_id,text FROM docx_blocks WHERE archive_id=? AND
block_id=?` lookup. -/
def lookupBlockText (db : SearchDB) (aid bid : String) : Option (String × Text) :=
  (db.docx_blocks.find? fun r => r.1 = aid ∧ r.2.1 = bid).map fun r => (r.2.1, r.2.2)

/-- The per-block relevance used by `pick_best_content_block`: total count of
raw occurrences of each non-empty token. -/
def blockScore (tokens : List Text) (text : Text) : Nat :=
  (tokens.map fun tok => if tok = [] then 0 else countMatches text tok).sum

/-- `pick_best_content_block`: read the provenance blocks, keep the first
block attaining the strictly maximal score. -/
def pick_best_content_block (db : SearchDB) (aid : String) (ids : List String)
    (tokens : List Text) : Option (String × Text) :=
  if ids = [] then none
  else
    let texts := ids.filterMap fun bid => lookupBlockText db aid bid
    if texts = [] then none
    else
      (texts.foldl
        (fun best p =>
          match best with
          | none => some (p.1, p.2, blockScore tokens p.2)
          | some b =>
            if blockScore tokens p.2 > b.2.2 then some (p.1, p.2, blockScore tokens p.2)
            else some b)
        none).map fun b => (b.1, b.2.1)

/-- The loop over `results_field`: set highlights; for `content` hits with a
provenance entry, drop the hit when a block hit already covers one of its
blocks, else attach the best supporting block (first provenance block when no
text is found). -/
def processFieldResults (seg : Text → List Text) (db : SearchDB) (query : Text)
    (qtokens : List Text) (cbm : List (String × List String))
    (hitBlocks : List (String × String)) : List SearchResult → List SearchResult
  | [] => []
  | .MainDocFieldHit aid fname src _ _ _ :: rest =>
    let hl := compute_highlights_utf16 seg src query
    let keep : List SearchResult :=
      if fname = "content" then
        match lookupCbm cbm aid with
        | some ids =>
          if ids.any fun bid => hitBlocks.contains (aid, bid) then []
          else
            match pick_best_content_block db aid ids qtokens with
            | some (bestId, bestText) =>
                [.MainDocFieldHit aid fname src hl (some bestId)
                  (some (compute_highlights_utf16 seg bestText query))]
            | none =>
                match ids.head? with
                | some first => [.MainDocFieldHit aid fname src hl (some first) none]
                | none => [.MainDocFieldHit aid fname src hl none none]
        | none => [.MainDocFieldHit aid fname src hl none none]
      else [.MainDocFieldHit aid fname src hl none none]
    keep ++ processFieldResults seg db query qtokens cbm hitBlocks rest
  | r :: rest => r :: processFieldResults seg db query qtokens cbm hitBlocks rest

/-- The `retain` by `want_docx` applied to the docx and field result lists. -/
def retainDocxMain (want : Option (List String)) (l : List SearchResult) :
    List SearchResult :=
  match want with
  | some w => if w.contains "docx_main" then l else []
  | none => l

def kind_rank : SearchResult → Int
  | .DocxBlockHit .. => 0
  | .MainDocFieldHit .. => 1
  | .AnnoHit .. => 2
  | .AttachmentNameHit .. => 3

/-- Total highlighted span (`end.saturating_sub(start)` summed; Nat
subtraction saturates). -/
def highlight_score (r : SearchResult) : Nat :=
  let hs : List Range :=
    match r with
    | .DocxBlockHit _ _ _ hs => hs
    | .MainDocFieldHit _ _ _ hs _ _ => hs
    | .AttachmentNameHit _ _ _ hs => hs
    | .AnnoHit _ _ _ _ _ _ hs => hs
  hs.foldl (fun acc x => acc + (x.stop - x.start)) 0

def field_rank (field_name : String) : Int :=
  if field_name = "instruction_no" then 0
  else if field_name = "title" then 1
  else if field_name = "content" then 2
  else if field_name = "issued_at" then 3
  else 9

/-- The `sort_by` comparator: kind rank, then (for two field hits) field
rank, then descending highlight span. -/
def cmpSR (a b : SearchResult) : Ordering :=
  let ka := kind_rank a
  let kb := kind_rank b
  if ka ≠ kb then compare ka kb
  else
    match a, b with
    | .MainDocFieldHit _ fa _ _ _ _, .MainDocFieldHit _ fb _ _ _ _ =>
      let ra := field_rank fa
      let rb := field_rank fb
      if ra ≠ rb then compare ra rb
      else compare (highlight_score b) (highlight_score a)
    | _, _ => compare (highlight_score b) (highlight_score a)

def srLeB (a b : SearchResult) : Bool := ¬cmpSR a b = .gt

def insertSR (x : SearchResult) : List SearchResult → List SearchResult
  | [] => [x]
  | y :: ys => if srLeB x y then x :: y :: ys else y :: insertSR x ys

/-- `Vec::sort_by` (stable; insertion sort placing each element before the
first strictly greater one is observably identical). -/
def sortSR : List SearchResult → List SearchResult
  | [] => []
  | x :: xs => insertSR x (sortSR xs)

/-- The per-store over-fetch bound: `need = offset + limit + 1`, scaled by 4,
capped at 5000, floored at 200 (the saturating usize operations never
saturate on Nat). -/
def fetchBound (limit offset : Nat) : Nat :=
  max (min ((offset + limit + 1) * 4) 5000) 200

/-- `search_paged_impl` after reading the request fields; `limit0`/`offset0`
are the caller values after `unwrap_or` defaulting. -/
def searchCore (seg : Text → List Text) (fm : Text → Text → Bool) (db : SearchDB)
    (query : Text) (filtersOpt : Option SearchFilters) (limit0 offset0 : Nat) :
    SearchPagedResponse :=
  let limit := min limit0 200
  let offset := min offset0 20000
  let match_query := build_match_query seg query
  if match_query = [] then ⟨[], false, offset, limit⟩
  else
    let filters := filtersOpt.getD ⟨none, none, none⟩
    let allowed : Option (List String) :=
      if filters.date_from.isSome || filters.date_to.isSome then
        some (filter_archives_by_date db filters.date_from filters.date_to)
      else none
    let want := filters.file_types
    let fetch := fetchBound limit offset
    let results_docx :=
      (query_docx_blocks fm db match_query fetch allowed).map (setHlDocx seg query)
    let results_attach :=
      (query_attachment_names fm db match_query fetch allowed want).map
        (setHlAttach seg query)
    let results_anno :=
      (query_annos fm db match_query fetch allowed want).map (setHlAnno seg query)
    let cbm := content_block_map db
    let hitBlocks := docx_hit_blocks results_docx
    let qtokens := query_tokens seg (trimChars query)
    let results_field := processFieldResults seg db query qtokens cbm hitBlocks
      (query_main_doc_fields fm db match_query fetch allowed)
    let out := retainDocxMain want results_docx ++ retainDocxMain want results_field ++
      results_anno ++ results_attach
    let sorted := sortSR out
    ⟨(sorted.drop offset).take limit, decide (offset + limit < out.length), offset, limit⟩

def search_paged_impl (seg : Text → List Text) (fm : Text → Text → Bool)
    (db : SearchDB) (req : SearchRequest) : SearchPagedResponse :=
  searchCore seg fm db req.query req.filters (req.limit.getD 50) (req.offset.getD 0)

/-- The legacy entry point: default the offset to 0, return only the items. -/
def search (seg : Text → List Text) (fm : Text → Text → Bool) (db : SearchDB)
    (req : SearchRequest) : List SearchResult :=
  (search_paged_impl seg fm db {req with offset := some (req.offset.getD 0)}).items

def search_paged (seg : Text → List Text) (fm : Text → Text → Bool) (db : SearchDB)
    (req : SearchRequest) : SearchPagedResponse :=
  search_paged_impl seg fm db req

/-! ### Import and delete (`importer.rs`, `db.rs`)

The database state holds the row lists of every table of `apply_migrations`
(the `annotations` tables are called `annos` here).  The SHA-256 based
stable attachment id is the abstract `hashFn`; the actual file bytes, zip
walking and field extraction happen before the database writes and enter the
model through `ImportEnv` as their outcomes (`Except` for the fallible
steps). -/

structure ArchRow where
  archive_id : String
  sha256 : String
  original_name : String
  source_path : String
  stored_path : String
  zip_date : Int
  imported_at : Int
  status : String
  error : Option String
deriving DecidableEq

structure MainDocDbRow where
  archive_id : String
  instruction_no : Text
  title : Text
  issued_at : Text
  content : Text
  field_block_map_json : String
deriving DecidableEq

structure BlockDbRow where
  archive_id : String
  block_id : String
  text : Text
deriving DecidableEq

structure AttachDbRow where
  file_id : String
  archive_id : String
  display_name : Text
  file_type : String
  source_depth : Nat
  container_virtual_path : Option String
  virtual_path : String
  cached_path : Option String
  size_bytes : Option Int
deriving DecidableEq

structure AnnoDbRow where
  anno_id : String
  archive_id : String
  target_kind : String
  target_ref : String
  locator_json : String
  content : Text
  created_at : Int
  updated_at : Int
deriving DecidableEq

structure AttachFtsDbRow where
  archive_id : String
  file_id : String
  search_text : Text
  display_name : Text
deriving DecidableEq

structure AnnoFtsDbRow where
  archive_id : String
  anno_id : String
  search_text : Text
  source_text : Text
deriving DecidableEq

structure ImportDB where
  archives : List ArchRow
  main_doc : List MainDocDbRow
  docx_blocks : List BlockDbRow
  attachments : List AttachDbRow
  annos : List AnnoDbRow
  docx_blocks_fts : List BlockFtsRow
  main_doc_fts : List FieldFtsRow
  attachments_fts : List AttachFtsDbRow
  annos_fts : List AnnoFtsDbRow
deriving DecidableEq

/-- `MainDocParsed` of `docx.rs` (the result of `parse_main_docx`). -/
structure MainDocParsed where
  instruction_no : Text
  title : Text
  issued_at : Text
  content : Text
  field_block_map_json : String
  blocks : List (String × Text)
deriving DecidableEq

/-- `AttachmentToInsert` before the file id fixup. -/
structure AttachmentToInsert where
  display_name : Text
  file_type : String
  source_depth : Nat
  container_virtual_path : Option String
  virtual_path : String
  size_bytes : Option Int
deriving DecidableEq

/-- `stable_file_id` is SHA-256 over (archive id, depth, container path,
virtual path); abstracted. -/
abbrev HashFn := String → Nat → Option String → String → String

/-- One `import_one_zip` call's interaction with the world outside the
database: the fingerprint and name of the file, the fresh UUID, the derived
date and timestamp, and the outcomes of the fallible non-database steps
(filesystem copy; zip open / main-docx identification / parse; attachment
enumeration; the SQL statements of the transaction). -/
structure ImportEnv where
  archive_id : String
  sha256 : String
  original_name : String
  source_path : String
  zip_date : Int
  imported_at : Int
  copy_result : Option String
  parse_result : Except String MainDocParsed
  enum_result : Except String (List AttachmentToInsert)
  tx_fail : Option String

/-- The per-file outcome; the source signals `skipped` through the
`__SKIP__` error marker counted by the batch loop. -/
inductive ImportOutcome
  | imported (row : ArchRow)
  | skipped
  | failed (msg : String)
deriving DecidableEq

/-- `write_attachments_tx`: fix up each placeholder file id with the real
archive id and insert the attachment row plus its FTS row. -/
def write_attachments_tx (seg : Text → List Text) (hashFn : HashFn) (aid : String) :
    List AttachmentToInsert → ImportDB → ImportDB
  | [], db => db
  | a :: rest, db =>
    let fid := hashFn aid a.source_depth a.container_virtual_path a.virtual_path
    write_attachments_tx seg hashFn aid rest
      { db with
        attachments := (db.attachments ++
          [(⟨fid, aid, a.display_name, a.file_type, a.source_depth,
            a.container_virtual_path, a.virtual_path, none, a.size_bytes⟩ : AttachDbRow)]),
        attachments_fts := (db.attachments_fts ++
          [(⟨aid, fid, build_search_text seg a.display_name, a.display_name⟩ :
            AttachFtsDbRow)]) }

/-- The Archive row inserted with status `processing` before the scan. -/
def procRowOf (env : ImportEnv) : ArchRow :=
  ⟨env.archive_id, env.sha256, env.original_name, env.source_path,
   "store/" ++ env.archive_id ++ "/" ++ env.original_name, env.zip_date,
   env.imported_at, "processing", none⟩

/-- The recovery `UPDATE archives SET status='failed', error=msg` applied to
one row. -/
def markFailed (aid msg : String) (a : ArchRow) : ArchRow :=
  if a.archive_id = aid then { a with status := "failed", error := some msg } else a

/-- The transactional `UPDATE archives SET status='completed'` applied to
one row. -/
def markCompleted (aid : String) (a : ArchRow) : ArchRow :=
  if a.archive_id = aid then { a with status := "completed" } else a

/-- The body of the import transaction: main document row, block rows, block
FTS rows, the four field FTS rows, the attachments, and the final status
update to `completed`; committed as one unit. -/
def insertDerived (seg : Text → List Text) (hashFn : HashFn) (aid : String)
    (parsed : MainDocParsed) (atts : List AttachmentToInsert) (db : ImportDB) : ImportDB :=
  let db1 := { db with main_doc := (db.main_doc ++
    [(⟨aid, parsed.instruction_no, parsed.title, parsed.issued_at, parsed.content,
      parsed.field_block_map_json⟩ : MainDocDbRow)]) }
  let db2 := { db1 with docx_blocks := (db1.docx_blocks ++
    parsed.blocks.map (fun (b : String × Text) => (⟨aid, b.1, b.2⟩ : BlockDbRow))) }
  let db3 := { db2 with docx_blocks_fts := (db2.docx_blocks_fts ++
    parsed.blocks.map (fun (b : String × Text) => (⟨aid, b.1, build_search_text seg b.2, b.2⟩ : BlockFtsRow))) }
  let db4 := { db3 with main_doc_fts := (db3.main_doc_fts ++
    ([⟨aid, "instruction_no", build_search_text seg parsed.instruction_no, parsed.instruction_no⟩,
      ⟨aid, "title", build_search_text seg parsed.title, parsed.title⟩,
      ⟨aid, "issued_at", build_search_text seg parsed.issued_at, parsed.issued_at⟩,
      ⟨aid, "content", build_search_text seg parsed.content, parsed.content⟩] :
      List FieldFtsRow)) }
  let db5 := write_attachments_tx seg hashFn aid atts db4
  { db5 with archives := (db5.archives.map (markCompleted aid)) }

/-- `import_one_zip`.  The dedup check runs before any storage or parsing
work; the Archive row is inserted with status `processing` outside the
transaction; a failure of any later step rolls the transaction back (its
inserts are discarded) and the recovery `UPDATE` marks the Archive row
`failed` with the error message. -/
def import_one_zip (seg : Text → List Text) (hashFn : HashFn) (env : ImportEnv)
    (db : ImportDB) : ImportOutcome × ImportDB :=
  if db.archives.any (fun a => a.sha256 = env.sha256) then (.skipped, db)
  else
    match env.copy_result with
    | some msg => (.failed msg, db)
    | none =>
      let db1 := { db with archives := db.archives ++ [procRowOf env] }
      let fail : String → ImportOutcome × ImportDB := fun msg =>
        (.failed msg,
         { db1 with archives := (db1.archives.map (markFailed env.archive_id msg)) })
      match env.parse_result with
      | .error msg => fail msg
      | .ok parsed =>
        match env.enum_result with
        | .error msg => fail msg
        | .ok atts =>
          match env.tx_fail with
          | some msg => fail msg
          | none =>
            (.imported { procRowOf env with status := "completed" },
             insertDerived seg hashFn env.archive_id parsed atts db1)

/-- `delete_archive_impl`: one transaction deleting the four FTS tables by
archive id explicitly and the `archives` row, whose foreign keys (with
`foreign_keys=ON`) cascade-delete the main document, block, attachment and
annotation rows. -/
def delete_archive_impl (db : ImportDB) (aid : String) : ImportDB :=
  { archives := db.archives.filter fun a => ¬a.archive_id = aid
    main_doc := db.main_doc.filter fun r => ¬r.archive_id = aid
    docx_blocks := db.docx_blocks.filter fun r => ¬r.archive_id = aid
    attachments := db.attachments.filter fun r => ¬r.archive_id = aid
    annos := db.annos.filter fun r => ¬r.archive_id = aid
    docx_blocks_fts := db.docx_blocks_fts.filter fun r => ¬r.archive_id = aid
    main_doc_fts := db.main_doc_fts.filter fun r => ¬r.archive_id = aid
    attachments_fts := db.attachments_fts.filter fun r => ¬r.archive_id = aid
    annos_fts := db.annos_fts.filter fun r => ¬r.archive_id = aid }

/-- No derived (content or index) row of the database mentions `aid`. -/
def noDerivedRows (db : ImportDB) (aid : String) : Prop :=
  db.main_doc.filter (fun r => r.archive_id = aid) = [] ∧
  db.docx_blocks.filter (fun r => r.archive_id = aid) = [] ∧
  db.attachments.filter (fun r => r.archive_id = aid) = [] ∧
  db.docx_blocks_fts.filter (fun r => r.archive_id = aid) = [] ∧
  db.main_doc_fts.filter (fun r => r.archive_id = aid) = [] ∧
  db.attachments_fts.filter (fun r => r.archive_id = aid) = [] ∧
  db.annos_fts.filter (fun r => r.archive_id = aid) = []

/-- `aid` is fresh for the database: no archive row and no derived row
mentions it (a freshly drawn UUID). -/
def freshId (db : ImportDB) (aid : String) : Prop :=
  db.archives.filter (fun a => a.archive_id = aid) = [] ∧ noDerivedRows db aid

/-! ## Theorems -/

/-- The `Collecting` arm never appends for an empty trimmed block and never
fires its break on empty text. -/
theorem collectPart_nil (st : ExtractState) (i : Nat) (b : DocxBlock) :
    collectPart st i b [] = (st, false) := by
  unfold collectPart
  cases st.collecting with
  | none => rfl
  | some start_idx =>
    simp only
    by_cases hle : i ≤ start_idx
    · rw [if_pos hle]
    · rw [if_neg hle]
      have h : reLabelLineMatches [] = false := by decide
      rw [h]
      simp

theorem mem_insertText {a x : Text} {l : List Text} :
    a ∈ insertText x l ↔ a = x ∨ a ∈ l := by
  induction l with
  | nil => simp [insertText]
  | cons y ys ih =>
    simp only [insertText]
    split
    · simp [or_comm, or_left_comm]
    · rw [List.mem_cons, ih, List.mem_cons]
      tauto

theorem mem_sortTexts {a : Text} {l : List Text} : a ∈ sortTexts l ↔ a ∈ l := by
  induction l with
  | nil => exact Iff.rfl
  | cons x xs ih => simp [sortTexts, mem_insertText, ih]

theorem mem_dedupAdjacent {a : Text} : ∀ {l : List Text}, a ∈ dedupAdjacent l ↔ a ∈ l
  | [] => Iff.rfl
  | [_] => Iff.rfl
  | x :: y :: rest => by
    simp only [dedupAdjacent]
    split
    · next h =>
      rw [@mem_dedupAdjacent a (y :: rest)]
      subst h
      simp only [List.mem_cons]
      tauto
    · rw [List.mem_cons, @mem_dedupAdjacent a (y :: rest)]
      simp only [List.mem_cons]

theorem mem_insertRg {a x : Range} {l : List Range} :
    a ∈ insertRg x l ↔ a = x ∨ a ∈ l := by
  induction l with
  | nil => simp [insertRg]
  | cons y ys ih =>
    simp only [insertRg]
    split
    · simp [or_comm, or_left_comm]
    · rw [List.mem_cons, ih, List.mem_cons]
      tauto

theorem mem_sortRanges {a : Range} {l : List Range} : a ∈ sortRanges l ↔ a ∈ l := by
  induction l with
  | nil => exact Iff.rfl
  | cons x xs ih => simp [sortRanges, mem_insertRg, ih]

theorem insertRg_ne_nil (x : Range) (l : List Range) : insertRg x l ≠ [] := by
  cases l with
  | nil => simp [insertRg]
  | cons y ys =>
    simp only [insertRg]
    split <;> simp

theorem rgLeB_iff {a b : Range} :
    rgLeB a b = true ↔ (a.start < b.start ∨ (a.start = b.start ∧ a.stop ≤ b.stop)) := by
  unfold rgLeB
  split <;> rename_i h1
  · simp
    omega
  · split <;> rename_i h2
    · simp
      omega
    · simp only [decide_eq_true_eq]
      omega

theorem rgLeB_refl (a : Range) : rgLeB a a = true := by
  rw [rgLeB_iff]; omega

theorem rgLeB_trans {a b c : Range} (h1 : rgLeB a b = true) (h2 : rgLeB b c = true) :
    rgLeB a c = true := by
  rw [rgLeB_iff] at h1 h2 ⊢
  omega

theorem rgLeB_total (a b : Range) : rgLeB a b = true ∨ rgLeB b a = true := by
  rw [rgLeB_iff, rgLeB_iff]
  omega

theorem rgLeB_start_le {a b : Range} (h : rgLeB a b = true) : a.start ≤ b.start := by
  rw [rgLeB_iff] at h
  omega

/-- The head of the insertion sort is minimal for `rgLeB`. -/
theorem sortRanges_head_min :
    ∀ (l : List Range) (h : Range) (t : List Range),
      sortRanges l = h :: t → ∀ r ∈ l, rgLeB h r = true := by
  intro l
  induction l with
  | nil => intro h t he; simp [sortRanges] at he
  | cons x xs ih =>
    intro h t he r hr
    simp only [sortRanges] at he
    rcases hs : sortRanges xs with _ | ⟨y, ys⟩
    · have hxs : xs = [] := by
        cases xs with
        | nil => rfl
        | cons a as =>
          exact absurd (by simpa [sortRanges] using hs) (insertRg_ne_nil a (sortRanges as))
      rw [hs] at he
      simp only [insertRg, List.cons.injEq] at he
      obtain ⟨rfl, -⟩ := he
      subst hxs
      rcases List.mem_singleton.mp hr with rfl
      exact rgLeB_refl r
    · rw [hs] at he
      simp only [insertRg] at he
      split at he <;> rename_i hxy
      · simp only [List.cons.injEq] at he
        obtain ⟨rfl, -⟩ := he
        rcases List.mem_cons.mp hr with rfl | hr'
        · exact rgLeB_refl r
        · exact rgLeB_trans hxy (ih y ys hs r hr')
      · simp only [List.cons.injEq] at he
        obtain ⟨rfl, -⟩ := he
        rcases List.mem_cons.mp hr with rfl | hr'
        · rw [rgLeB_iff] at hxy ⊢
          omega
        · exact ih _ ys hs r hr'

theorem le_foldl_maxStop : ∀ (l : List Range) (acc : Nat),
    acc ≤ l.foldl (fun m r => max m r.stop) acc := by
  intro l
  induction l with
  | nil => intro acc; simp
  | cons r rest ih =>
    intro acc
    simpa using le_trans (Nat.le_max_left acc r.stop) (ih (max acc r.stop))

theorem foldl_maxStop_le {hi : Nat} : ∀ (l : List Range) (acc : Nat),
    acc ≤ hi → (∀ r ∈ l, r.stop ≤ hi) →
    l.foldl (fun m r => max m r.stop) acc ≤ hi := by
  intro l
  induction l with
  | nil => intro acc ha _; simpa using ha
  | cons r rest ih =>
    intro acc ha hl
    simp only [List.foldl_cons]
    exact ih (max acc r.stop)
      (Nat.max_le.mpr ⟨ha, hl r (List.mem_cons_self r rest)⟩)
      (fun x hx => hl x (List.mem_cons_of_mem r hx))

theorem stop_le_foldl_maxStop {x : Range} : ∀ {l : List Range} (acc : Nat), x ∈ l →
    x.stop ≤ l.foldl (fun m r => max m r.stop) acc := by
  intro l
  induction l with
  | nil => intro acc h; simp at h
  | cons r rest ih =>
    intro acc h
    simp only [List.foldl_cons]
    rcases List.mem_cons.mp h with rfl | h'
    · exact le_trans (Nat.le_max_right acc x.stop) (le_foldl_maxStop rest _)
    · exact ih _ h'

/-- The merge fold collapses everything into one range when every range
touches a common point `c` not above the current end. -/
theorem mergeGo_point {c : Nat} : ∀ (l : List Range) (cur : Range),
    c ≤ cur.stop → (∀ r ∈ l, r.start ≤ c ∧ c ≤ r.stop) →
    mergeGo cur l = [⟨cur.start, l.foldl (fun m r => max m r.stop) cur.stop⟩] := by
  intro l
  induction l with
  | nil => intro cur _ _; simp [mergeGo]
  | cons r rest ih =>
    intro cur hc hl
    obtain ⟨hrs, hrc⟩ := hl r (List.mem_cons_self r rest)
    have hmerge : r.start ≤ cur.stop := le_trans hrs hc
    simp only [mergeGo, if_pos hmerge, List.foldl_cons]
    exact ih ⟨cur.start, max cur.stop r.stop⟩
      (le_trans hc (Nat.le_max_left _ _))
      (fun x hx => hl x (List.mem_cons_of_mem r hx))

/-- `normalize_ranges` returns the single range `[lo, hi)` whenever that
range is present and every range lies inside it while touching the common
point `c`. -/
theorem normalize_ranges_point (l : List Range) (lo c hi : Nat)
    (hmem : (⟨lo, hi⟩ : Range) ∈ l)
    (hall : ∀ r ∈ l, lo ≤ r.start ∧ r.stop ≤ hi ∧ r.start ≤ c ∧ c ≤ r.stop) :
    normalize_ranges l 20 = [⟨lo, hi⟩] := by
  rcases hs : sortRanges l with _ | ⟨h, t⟩
  · exfalso
    cases l with
    | nil => simp at hmem
    | cons a as => exact insertRg_ne_nil a (sortRanges as) (by simpa [sortRanges] using hs)
  · have hhl : h ∈ l := mem_sortRanges.mp (hs ▸ List.mem_cons_self h t)
    have htl : ∀ r ∈ t, r ∈ l := fun r hr =>
      mem_sortRanges.mp (hs ▸ List.mem_cons_of_mem h hr)
    have hch : c ≤ h.stop := (hall h hhl).2.2.2
    have hmin : rgLeB h ⟨lo, hi⟩ = true :=
      sortRanges_head_min l h t hs ⟨lo, hi⟩ hmem
    have hstart : h.start = lo :=
      le_antisymm (rgLeB_start_le hmin) (hall h hhl).1
    have hM : t.foldl (fun m r => max m r.stop) h.stop = hi := by
      apply le_antisymm
      · exact foldl_maxStop_le t h.stop (hall h hhl).2.1
          (fun r hr => (hall r (htl r hr)).2.1)
      · rcases List.mem_cons.mp (hs ▸ mem_sortRanges.mpr hmem) with he | hm
        · have : hi = h.stop := by rw [← he]
          exact this ▸ le_foldl_maxStop t h.stop
        · exact stop_le_foldl_maxStop h.stop hm
    have hnr : normalize_ranges l 20 = (mergeGo h t).take 20 := by
      unfold normalize_ranges
      rw [hs]
    rw [hnr,
      mergeGo_point t h hch (fun r hr => ⟨(hall r (htl r hr)).2.2.1, (hall r (htl r hr)).2.2.2⟩),
      hstart, hM]
    rfl

/-- Every infix of a two-element list is one of its four contiguous parts. -/
theorem infix_pair {α : Type} {a b : α} {l : List α} (h : l <:+: [a, b]) :
    l = [] ∨ l = [a] ∨ l = [b] ∨ l = [a, b] := by
  obtain ⟨s, t, hst⟩ := h
  rcases s with _ | ⟨x, _ | ⟨y, s'⟩⟩
  · rcases l with _ | ⟨u, _ | ⟨v, l'⟩⟩
    · exact Or.inl rfl
    · simp only [List.cons_append, List.nil_append, List.cons.injEq] at hst
      exact Or.inr (Or.inl (by simp [hst.1]))
    · simp only [List.cons_append, List.nil_append, List.cons.injEq] at hst
      obtain ⟨rfl, rfl, hnil⟩ := hst
      have := List.append_eq_nil.mp hnil
      exact Or.inr (Or.inr (Or.inr (by simp [this.1])))
  · rcases l with _ | ⟨u, l'⟩
    · exact Or.inl rfl
    · simp only [List.cons_append, List.nil_append, List.cons.injEq] at hst
      obtain ⟨rfl, rfl, hnil⟩ := hst
      have := List.append_eq_nil.mp hnil
      exact Or.inr (Or.inr (Or.inl (by simp [this.1])))
  · simp only [List.cons_append, List.cons.injEq] at hst
    obtain ⟨rfl, rfl, hnil⟩ := hst
    have := List.append_eq_nil.mp (List.append_eq_nil.mp hnil).1
    exact Or.inl this.2

theorem filter_of_filter_not {α : Type} (p : α → Prop) [DecidablePred p] (l : List α) :
    (l.filter fun a => ¬p a).filter (fun a => p a) = [] := by
  apply List.filter_eq_nil_iff.mpr
  intro a ha
  have h := (List.mem_filter.mp ha).2
  simp only [decide_eq_true_eq] at h ⊢
  exact h

theorem write_attachments_tx_archives (seg : Text → List Text) (hashFn : HashFn)
    (aid : String) (atts : List AttachmentToInsert) :
    ∀ db : ImportDB, (write_attachments_tx seg hashFn aid atts db).archives = db.archives := by
  induction atts with
  | nil => intro db; rfl
  | cons a rest ih => intro db; exact ih _

theorem map_sha_of_update (l : List ArchRow) (f : ArchRow → ArchRow)
    (hf : ∀ a, (f a).sha256 = a.sha256) :
    (l.map f).map (fun a => a.sha256) = l.map fun a => a.sha256 := by
  induction l with
  | nil => rfl
  | cons a l ih => simp [hf, ih]

/-- Claim C9: deleting an archive removes, in the one delete operation, the
archive row and every main-document, block, attachment, annotation and FTS
row carrying its id: afterwards every per-table query for that id is empty. -/
theorem C9_delete_cascade (db : ImportDB) (aid : String) :
    (delete_archive_impl db aid).archives.filter (fun a => a.archive_id = aid) = [] ∧
    noDerivedRows (delete_archive_impl db aid) aid ∧
    (delete_archive_impl db aid).annos.filter (fun r => r.archive_id = aid) = [] := by
  unfold delete_archive_impl noDerivedRows
  exact ⟨filter_of_filter_not _ _,
    ⟨filter_of_filter_not _ _, filter_of_filter_not _ _, filter_of_filter_not _ _,
     filter_of_filter_not _ _, filter_of_filter_not _ _, filter_of_filter_not _ _,
     filter_of_filter_not _ _⟩,
    filter_of_filter_not _ _⟩

theorem build_match_query_of_tokens_nil (seg : Text → List Text) (query : Text)
    (h : query_tokens seg (trimChars query) = []) :
    build_match_query seg query = [] := by
  simp only [build_match_query]
  split
  · rfl
  · rw [h]
    rfl

theorem query_docx_blocks_nil (fm : Text → Text → Bool) (db : SearchDB) (mq : Text)
    (limit : Nat) (allowed : Option (List String))
    (h : ∀ r ∈ db.docx_blocks_fts, fm mq r.search_text = false) :
    query_docx_blocks fm db mq limit allowed = [] := by
  apply List.eq_nil_iff_forall_not_mem.mpr
  intro x hx
  unfold query_docx_blocks at hx
  obtain ⟨r, hr, -⟩ := List.mem_map.mp hx
  obtain ⟨hr2, -⟩ := List.mem_filter.mp (List.mem_of_mem_take hr)
  obtain ⟨hrl, hp⟩ := List.mem_filter.mp (List.mem_of_mem_take hr2)
  rw [h r hrl] at hp
  simp at hp

theorem query_main_doc_fields_nil (fm : Text → Text → Bool) (db : SearchDB) (mq : Text)
    (limit : Nat) (allowed : Option (List String))
    (h : ∀ r ∈ db.main_doc_fts, fm mq r.search_text = false) :
    query_main_doc_fields fm db mq limit allowed = [] := by
  apply List.eq_nil_iff_forall_not_mem.mpr
  intro x hx
  unfold query_main_doc_fields at hx
  obtain ⟨r, hr, -⟩ := List.mem_map.mp hx
  obtain ⟨hr2, -⟩ := List.mem_filter.mp (List.mem_of_mem_take hr)
  obtain ⟨hrl, hp⟩ := List.mem_filter.mp (List.mem_of_mem_take hr2)
  rw [h r hrl] at hp
  simp at hp

theorem query_attachment_names_nil (fm : Text → Text → Bool) (db : SearchDB) (mq : Text)
    (limit : Nat) (allowed : Option (List String)) (want : Option (List String))
    (h : ∀ r ∈ db.attachments_fts, fm mq r.search_text = false) :
    query_attachment_names fm db mq limit allowed want = [] := by
  apply List.eq_nil_iff_forall_not_mem.mpr
  intro x hx
  simp only [query_attachment_names] at hx
  split at hx
  · exact absurd hx (List.not_mem_nil x)
  · split at hx
    · exact absurd hx (List.not_mem_nil x)
    · obtain ⟨r, hr, -⟩ := List.mem_map.mp hx
      obtain ⟨hrl, hp⟩ :=
        List.mem_filter.mp (List.mem_of_mem_take (List.mem_of_mem_take hr))
      rw [h r hrl] at hp
      simp at hp

theorem query_annos_nil (fm : Text → Text → Bool) (db : SearchDB) (mq : Text)
    (limit : Nat) (allowed : Option (List String)) (want : Option (List String))
    (h : ∀ r ∈ db.annos_fts, fm mq r.search_text = false) :
    query_annos fm db mq limit allowed want = [] := by
  apply List.eq_nil_iff_forall_not_mem.mpr
  intro x hx
  simp only [query_annos] at hx
  split at hx
  · exact absurd hx (List.not_mem_nil x)
  · split at hx
    · exact absurd hx (List.not_mem_nil x)
    · obtain ⟨r, hr, -⟩ := List.mem_map.mp hx
      obtain ⟨hrl, hp⟩ :=
        List.mem_filter.mp (List.mem_of_mem_take (List.mem_of_mem_take hr))
      rw [h r hrl] at hp
      simp at hp

theorem retainDocxMain_nil (want : Option (List String)) :
    retainDocxMain want [] = [] := by
  cases want <;> simp [retainDocxMain]

/-- Claim C7: (1) a request whose query yields no tokens returns the empty
page immediately; (2) a query whose tokens match no row of any of the four
FTS stores returns `items = []`, `has_more = false` whatever the date-range
and type filters are. -/
theorem C7_empty_and_unmatched (seg : Text → List Text) (fm : Text → Text → Bool)
    (db : SearchDB) (req : SearchRequest) :
    (query_tokens seg (trimChars req.query) = [] →
       (search_paged_impl seg fm db req).items = [] ∧
       (search_paged_impl seg fm db req).has_more = false) ∧
    ((∀ r ∈ db.docx_blocks_fts, fm (build_match_query seg req.query) r.search_text = false) →
     (∀ r ∈ db.main_doc_fts, fm (build_match_query seg req.query) r.search_text = false) →
     (∀ r ∈ db.attachments_fts, fm (build_match_query seg req.query) r.search_text = false) →
     (∀ r ∈ db.annos_fts, fm (build_match_query seg req.query) r.search_text = false) →
       (search_paged_impl seg fm db req).items = [] ∧
       (search_paged_impl seg fm db req).has_more = false) := by
  constructor
  · intro h
    have hmq := build_match_query_of_tokens_nil seg req.query h
    simp [search_paged_impl, searchCore, hmq]
  · intro h1 h2 h3 h4
    by_cases hmq : build_match_query seg req.query = []
    · simp [search_paged_impl, searchCore, hmq]
    · simp only [search_paged_impl, searchCore, if_neg hmq,
        query_docx_blocks_nil fm db _ _ _ h1,
        query_main_doc_fields_nil fm db _ _ _ h2,
        query_attachment_names_nil fm db _ _ _ _ h3,
        query_annos_nil fm db _ _ _ _ h4,
        List.map_nil, retainDocxMain_nil, processFieldResults, docx_hit_blocks,
        List.append_nil, List.nil_append, sortSR, List.drop_nil, List.take_nil,
        List.length_nil]
      simp

/-- Witness for C7: a one-character query with a segmenter returning no
tokens (part 1), and a never-matching FTS evaluator over a one-row database
(part 2). -/
theorem C7_empty_and_unmatched_witness :
    ((search_paged_impl (fun _ => []) (fun _ _ => false)
        ⟨[("a1", 5)], [("a1", "p:000001", txt "甲")], [("a1", ["p:000001"])],
         [⟨"a1", "p:000001", txt "x", txt "x"⟩], [⟨"a1", "content", txt "x", txt "x"⟩],
         [⟨"a1", "f1", txt "x", txt "x", "pdf"⟩],
         [⟨"a1", "n1", txt "x", "archive", "r", "j", txt "x"⟩]⟩
        ⟨txt "a", none, none, none⟩).items = [] ∧
     (search_paged_impl (fun _ => []) (fun _ _ => false)
        ⟨[("a1", 5)], [("a1", "p:000001", txt "甲")], [("a1", ["p:000001"])],
         [⟨"a1", "p:000001", txt "x", txt "x"⟩], [⟨"a1", "content", txt "x", txt "x"⟩],
         [⟨"a1", "f1", txt "x", txt "x", "pdf"⟩],
         [⟨"a1", "n1", txt "x", "archive", "r", "j", txt "x"⟩]⟩
        ⟨txt "a", none, none, none⟩).has_more = false) ∧
    ((search_paged_impl (fun q => [q]) (fun _ _ => false)
        ⟨[("a1", 5)], [("a1", "p:000001", txt "甲")], [("a1", ["p:000001"])],
         [⟨"a1", "p:000001", txt "x", txt "x"⟩], [⟨"a1", "content", txt "x", txt "x"⟩],
         [⟨"a1", "f1", txt "x", txt "x", "pdf"⟩],
         [⟨"a1", "n1", txt "x", "archive", "r", "j", txt "x"⟩]⟩
        ⟨txt "查询", some ⟨some 0, some 9, some ["pdf"]⟩, some 10, some 0⟩).items = [] ∧
     (search_paged_impl (fun q => [q]) (fun _ _ => false)
        ⟨[("a1", 5)], [("a1", "p:000001", txt "甲")], [("a1", ["p:000001"])],
         [⟨"a1", "p:000001", txt "x", txt "x"⟩], [⟨"a1", "content", txt "x", txt "x"⟩],
         [⟨"a1", "f1", txt "x", txt "x", "pdf"⟩],
         [⟨"a1", "n1", txt "x", "archive", "r", "j", txt "x"⟩]⟩
        ⟨txt "查询", some ⟨some 0, some 9, some ["pdf"]⟩, some 10, some 0⟩).has_more = false) :=
  ⟨(C7_empty_and_unmatched (fun _ => []) (fun _ _ => false) _ _).1 (by decide),
   (C7_empty_and_unmatched (fun q => [q]) (fun _ _ => false) _ _).2
     (fun r _ => rfl) (fun r _ => rfl) (fun r _ => rfl) (fun r _ => rfl)⟩

/-- Claim C8 (amended): the per-store fetch bound is at least
`min (offset + limit + 1) 5000` after server-side clamping: it is
`offset + limit + 1` scaled by 4, capped at 5000 and floored at 200, so it
reaches `offset + limit + 1` exactly when that value does not exceed the
5000 cap. -/
theorem C8_fetch_bound (limit0 offset0 : Nat) :
    min (min offset0 20000 + min limit0 200 + 1) 5000 ≤
      fetchBound (min limit0 200) (min offset0 20000) := by
  unfold fetchBound
  omega

/-- Claim C8, counterexample: the request `limit = 50`, `offset = 10000`
(both unchanged by the server-side clamps) gets a per-store fetch bound of
5000, which is below `offset + limit + 1 = 10051`. -/
theorem C8_fetch_bound_counterexample :
    fetchBound (min 50 200) (min 10000 20000) < min 10000 20000 + min 50 200 + 1 := by
  decide

/-- Claim C10: the legacy `search` entry point returns exactly the `items`
of `search_paged` on the same request with the offset defaulted to 0, and
(because the implementation defaults a missing offset itself) also the
`items` of `search_paged` on the unmodified request. -/
theorem C10_search_eq_paged (seg : Text → List Text) (fm : Text → Text → Bool)
    (db : SearchDB) (req : SearchRequest) :
    search seg fm db req =
      (search_paged seg fm db {req with offset := some (req.offset.getD 0)}).items ∧
    search seg fm db req = (search_paged seg fm db req).items := by
  cases req with
  | mk q f l o => cases o <;> exact ⟨rfl, rfl⟩

/-- Claim C6: for text `ABC测试DEF` and query `测试`, the highlight
computation returns exactly one range, `[3, 5)` in UTF-16 code units (width
2).  The jieba segmenter is abstract; the hypothesis states its library
contract: every token it cuts is a slice (contiguous substring) of its
input. -/
theorem C6_highlights_utf16 (seg : Text → List Text)
    (hseg : ∀ s ∈ seg (txt "测试"), s <:+: txt "测试") :
    compute_highlights_utf16 seg (txt "ABC测试DEF") (txt "测试") =
      [⟨3, 5⟩] := by
  have hq : trimChars (txt "测试") = txt "测试" := by decide
  have hN : txt "测试" ∈ highlight_needles seg (txt "测试") := by
    simp only [highlight_needles]
    rw [mem_dedupAdjacent, mem_sortTexts, List.mem_filter]
    constructor
    · exact List.mem_append_left _
        (List.mem_append_left _ (List.mem_append_left _ (by decide)))
    · decide
  have hcases : ∀ n ∈ highlight_needles seg (txt "测试"),
      n = txt "测" ∨ n = txt "试" ∨ n = txt "测试" := by
    intro n hn
    simp only [highlight_needles] at hn
    rw [mem_dedupAdjacent, mem_sortTexts, List.mem_filter] at hn
    obtain ⟨hmem, -⟩ := hn
    simp only [List.mem_append] at hmem
    rcases hmem with ((hA | hB) | hC) | hD
    · right; right
      rw [if_neg (by decide)] at hA
      rw [List.mem_singleton.mp hA]
      decide
    · simp only [jieba_tokens, List.mem_filter, List.mem_map, decide_eq_true_eq] at hB
      obtain ⟨⟨s0, hs0, rfl⟩, hne⟩ := hB
      have hseg' : s0 <:+: ['测', '试'] := by
        have h := hseg s0 hs0
        rwa [show txt "测试" = ['测', '试'] from by decide] at h
      rcases infix_pair hseg' with rfl | rfl | rfl | rfl
      · exact absurd (by decide) hne
      · left; decide
      · right; left; decide
      · right; right; decide
    · right; right
      rw [show char_ngrams (txt "测试") 2 = [txt "测试"] from by decide] at hC
      exact List.mem_singleton.mp hC
    · rw [show char_ngrams (txt "测试") 3 = [] from by decide] at hD
      exact absurd hD (List.not_mem_nil n)
  simp only [compute_highlights_utf16, hq]
  rw [if_neg (by decide)]
  apply normalize_ranges_point _ 3 4 5
  · rw [List.mem_flatten]
    exact ⟨match_ranges (txt "ABC测试DEF") (txt "测试"),
      List.mem_map.mpr ⟨txt "测试", hN, rfl⟩, by decide⟩
  · intro r hr
    rw [List.mem_flatten] at hr
    obtain ⟨s, hsmem, hrs⟩ := hr
    rw [List.mem_map] at hsmem
    obtain ⟨n, hn, rfl⟩ := hsmem
    rcases hcases n hn with rfl | rfl | rfl
    · rw [show match_ranges (txt "ABC测试DEF") (txt "测") = [⟨3, 4⟩] from by decide] at hrs
      rw [List.mem_singleton.mp hrs]
      exact ⟨by decide, by decide, by decide, by decide⟩
    · rw [show match_ranges (txt "ABC测试DEF") (txt "试") = [⟨4, 5⟩] from by decide] at hrs
      rw [List.mem_singleton.mp hrs]
      exact ⟨by decide, by decide, by decide, by decide⟩
    · rw [show match_ranges (txt "ABC测试DEF") (txt "测试") = [⟨3, 5⟩] from by decide] at hrs
      rw [List.mem_singleton.mp hrs]
      exact ⟨by decide, by decide, by decide, by decide⟩

/-- Witness for C6: the identity-like segmenter that returns its input as a
single token satisfies the slice contract. -/
theorem C6_highlights_utf16_witness :
    compute_highlights_utf16 (fun q => [q]) (txt "ABC测试DEF") (txt "测试") =
      [⟨3, 5⟩] :=
  C6_highlights_utf16 (fun q => [q]) (fun s hs => by
    rw [List.mem_singleton.mp hs])

/-- Claim C1: on input blocks `内容：甲`, `标题：乙`, `丙`, the extractor keeps
collecting after the header-label block: block `丙` (at index 2, after the
header-label block `标题：乙`) still contributes to the body text and to the
content block-id list.  This refutes the claimed termination of collection at
a header-label block: the `break` guarded by `re_label_line` in the
`Collecting` arm is unreachable, because any block matched by `re_label_line`
also has `re_label_any` hits and is handled by the hits branch, which
`continue`s. -/
theorem C1_collect_not_terminated :
    extract_fields_and_map
      [⟨"p:000001", txt "内容：甲"⟩, ⟨"p:000002", txt "标题：乙"⟩,
       ⟨"p:000003", txt "丙"⟩] =
    { instruction_no := []
      title := txt "乙"
      issued_at := []
      content := txt "甲\n丙"
      map_instruction_no := none
      map_title := some "p:000002"
      map_issued_at := none
      content_block_ids := ["p:000001", "p:000003"]
      content_anchor := some "p:000001" } := by
  decide

/-- Claim C5: the worked example of the spec.  On blocks `指令编号：A-001`,
`标题：测试`, `内容：第一段`, `第二段` the extractor returns
`instruction_no = "A-001"`, `title = "测试"`, `content = "第一段\n第二段"`, and
the provenance content block-id list is exactly the ids of the third and
fourth blocks (length 2). -/
theorem C5_worked_example :
    extract_fields_and_map
      [⟨"p:000001", txt "指令编号：A-001"⟩, ⟨"p:000002", txt "标题：测试"⟩,
       ⟨"p:000003", txt "内容：第一段"⟩, ⟨"p:000004", txt "第二段"⟩] =
    { instruction_no := txt "A-001"
      title := txt "测试"
      issued_at := []
      content := txt "第一段\n第二段"
      map_instruction_no := some "p:000001"
      map_title := some "p:000002"
      map_issued_at := none
      content_block_ids := ["p:000003", "p:000004"]
      content_anchor := some "p:000003" } := by
  decide

/-- Claim C4, counterexample: a pending label (`编号：` at the end of block 1)
followed by an empty block is discarded (`pending_single.take()` consumes it
even when the block text is empty), so the field is NOT assigned the text of
the next non-empty block `A-001`; it stays empty. -/
theorem C4_counterexample :
    (extract_fields_and_map
      [⟨"p:000001", txt "编号："⟩, ⟨"p:000002", txt ""⟩,
       ⟨"p:000003", txt "A-001"⟩]).instruction_no = [] ∧
    (extract_fields_and_map
      [⟨"p:000001", txt "编号："⟩, ⟨"p:000002", txt ""⟩,
       ⟨"p:000003", txt "A-001"⟩]).instruction_no ≠ txt "A-001" := by
  decide

/-- Claim C4 (amended): a scalar label with empty captured remainder records
a single pending label (the state holds at most one).  (a) A block with any
label hits cancels the pending label: the step result does not depend on the
incoming pending value.  (b) The pending label is resolved only by the
immediately following block: if that block has no label hits and non-empty
trimmed text while the field is still empty, the field is assigned that
block's trimmed text and provenance records the label's block id.  (c) If the
immediately following block has no hits and empty trimmed text, the pending
label is consumed and discarded without assigning anything. -/
theorem C4_pending_resolution (st : ExtractState) (i : Nat) (b : DocxBlock) :
    (findHits (trimChars b.text) ≠ [] →
       processBlock st i b = processBlock {st with pending := none} i b) ∧
    (∀ c bid, st.pending = some (c, bid) → findHits (trimChars b.text) = [] →
       trimChars b.text ≠ [] → scalarVal st c = [] →
       (c = .instruction_no ∨ c = .title ∨ c = .issued_at) →
       processBlock st i b =
         (resolvePending {st with pending := none} c (trimChars b.text) bid, false)) ∧
    (st.pending.isSome → findHits (trimChars b.text) = [] → trimChars b.text = [] →
       processBlock st i b = ({st with pending := none}, false)) := by
  refine ⟨?_, ?_, ?_⟩
  · intro h
    rcases hfh : findHits (trimChars b.text) with _ | ⟨hd, tl⟩
    · exact absurd hfh h
    · simp only [processBlock, hfh]
  · intro c bid hp hfh hne hval hc
    simp only [processBlock, hfh, hp]
    rcases hc with rfl | rfl | rfl <;>
      · simp only [scalarVal] at hval
        rw [if_neg hne]
        simp [hval]
  · intro hp hfh ht
    obtain ⟨⟨c, bid⟩, hpe⟩ := Option.isSome_iff_exists.mp hp
    have hfn : findHits ([] : Text) = [] := rfl
    simp [processBlock, hpe, ht, hfn, collectPart_nil]

/-- Witness for C4: the three cases of `C4_pending_resolution` instantiated
at concrete states and blocks. -/
theorem C4_pending_resolution_witness :
    (processBlock {initState with pending := some (Canon.title, "p:000001")} 1
        ⟨"p:000002", txt "编号：X"⟩ =
      processBlock {initState with pending := none} 1 ⟨"p:000002", txt "编号：X"⟩) ∧
    (processBlock {initState with pending := some (Canon.instruction_no, "p:000001")} 1
        ⟨"p:000002", txt "A-001"⟩ =
      (resolvePending {initState with pending := none} Canon.instruction_no
        (trimChars (txt "A-001")) "p:000001", false)) ∧
    (processBlock {initState with pending := some (Canon.instruction_no, "p:000001")} 1
        ⟨"p:000002", txt ""⟩ = ({initState with pending := none}, false)) :=
  ⟨(C4_pending_resolution {initState with pending := some (Canon.title, "p:000001")} 1
      ⟨"p:000002", txt "编号：X"⟩).1 (by decide),
   (C4_pending_resolution {initState with pending := some (Canon.instruction_no, "p:000001")} 1
      ⟨"p:000002", txt "A-001"⟩).2.1 Canon.instruction_no "p:000001" rfl (by decide)
      (by decide) rfl (Or.inl rfl),
   (C4_pending_resolution {initState with pending := some (Canon.instruction_no, "p:000001")} 1
      ⟨"p:000002", txt ""⟩).2.2 rfl (by decide) (by decide)⟩

/-- Claim C2: if an import passes the dedup check and the filesystem copy
(so the Archive row is inserted with status `processing`) and any later step
fails — the zip scan / parse, the attachment enumeration, or a statement of
the transaction — then: the outcome is `failed`; the Archive row remains,
with status `failed` and a non-null error message; no main-document, block,
attachment or FTS row for that archive is committed; and no row for that
archive ever carries status `completed`. -/
theorem C2_import_failure_atomic (seg : Text → List Text) (hashFn : HashFn)
    (env : ImportEnv) (db : ImportDB)
    (hsha : ∀ a ∈ db.archives, ¬a.sha256 = env.sha256)
    (hfresh : freshId db env.archive_id)
    (hcopy : env.copy_result = none)
    (hfail : (∃ msg, env.parse_result = .error msg) ∨
             (∃ msg, env.enum_result = .error msg) ∨ (∃ msg, env.tx_fail = some msg)) :
    (∃ msg, (import_one_zip seg hashFn env db).1 = .failed msg) ∧
    (∃ a ∈ (import_one_zip seg hashFn env db).2.archives,
        a.archive_id = env.archive_id ∧ a.status = "failed" ∧ ¬a.error = none) ∧
    noDerivedRows (import_one_zip seg hashFn env db).2 env.archive_id ∧
    (∀ a ∈ (import_one_zip seg hashFn env db).2.archives,
        a.archive_id = env.archive_id → ¬a.status = "completed") := by
  have hany : (db.archives.any fun a => a.sha256 = env.sha256) = false := by
    rw [List.any_eq_false]
    intro a ha
    simpa using hsha a ha
  have key : ∀ msg : String,
      (∃ a ∈ ((db.archives ++ [procRowOf env]).map (markFailed env.archive_id msg)),
          a.archive_id = env.archive_id ∧ a.status = "failed" ∧ ¬a.error = none) ∧
      noDerivedRows { db with archives :=
          ((db.archives ++ [procRowOf env]).map (markFailed env.archive_id msg)) }
        env.archive_id ∧
      (∀ a ∈ ((db.archives ++ [procRowOf env]).map (markFailed env.archive_id msg)),
          a.archive_id = env.archive_id → ¬a.status = "completed") := by
    intro msg
    refine ⟨?_, hfresh.2, ?_⟩
    · refine ⟨_, List.mem_map_of_mem _
        (List.mem_append_right _ (List.mem_cons_self _ _)), ?_⟩
      simp [markFailed, procRowOf]
    · intro a ha haid
      obtain ⟨b, hb, rfl⟩ := List.mem_map.mp ha
      rcases List.mem_append.mp hb with hbl | hbr
      · have hbne : ¬b.archive_id = env.archive_id := by
          have := List.filter_eq_nil_iff.mp hfresh.1 b hbl
          simpa using this
        simp only [markFailed, if_neg hbne] at haid ⊢
        exact absurd haid hbne
      · rcases List.mem_singleton.mp hbr with rfl
        simp [markFailed, procRowOf]
  rcases hp : env.parse_result with pmsg | parsed
  · have hred : import_one_zip seg hashFn env db =
        (.failed pmsg, { db with archives :=
          ((db.archives ++ [procRowOf env]).map (markFailed env.archive_id pmsg)) }) := by
      simp [import_one_zip, hany, hcopy, hp]
    rw [hred]
    exact ⟨⟨pmsg, rfl⟩, key pmsg⟩
  · rcases he : env.enum_result with emsg | atts
    · have hred : import_one_zip seg hashFn env db =
          (.failed emsg, { db with archives :=
            ((db.archives ++ [procRowOf env]).map (markFailed env.archive_id emsg)) }) := by
        simp [import_one_zip, hany, hcopy, hp, he]
      rw [hred]
      exact ⟨⟨emsg, rfl⟩, key emsg⟩
    · rcases ht : env.tx_fail with _ | tmsg
      · exfalso
        rcases hfail with ⟨m, hm⟩ | ⟨m, hm⟩ | ⟨m, hm⟩ <;> simp_all
      · have hred : import_one_zip seg hashFn env db =
            (.failed tmsg, { db with archives :=
              ((db.archives ++ [procRowOf env]).map (markFailed env.archive_id tmsg)) }) := by
          simp [import_one_zip, hany, hcopy, hp, he, ht]
        rw [hred]
        exact ⟨⟨tmsg, rfl⟩, key tmsg⟩

/-- Witness for C2: a parse failure on an empty database. -/
theorem C2_import_failure_atomic_witness :
    (∃ msg, (import_one_zip (fun _ => []) (fun _ _ _ _ => "h")
        ⟨"id1", "s1", "a.zip", "/s/a.zip", 0, 0, none, .error "bad zip", .ok [], none⟩
        ⟨[], [], [], [], [], [], [], [], []⟩).1 = .failed msg) ∧
    (∃ a ∈ (import_one_zip (fun _ => []) (fun _ _ _ _ => "h")
        ⟨"id1", "s1", "a.zip", "/s/a.zip", 0, 0, none, .error "bad zip", .ok [], none⟩
        ⟨[], [], [], [], [], [], [], [], []⟩).2.archives,
        a.archive_id = "id1" ∧ a.status = "failed" ∧ ¬a.error = none) ∧
    noDerivedRows (import_one_zip (fun _ => []) (fun _ _ _ _ => "h")
        ⟨"id1", "s1", "a.zip", "/s/a.zip", 0, 0, none, .error "bad zip", .ok [], none⟩
        ⟨[], [], [], [], [], [], [], [], []⟩).2 "id1" ∧
    (∀ a ∈ (import_one_zip (fun _ => []) (fun _ _ _ _ => "h")
        ⟨"id1", "s1", "a.zip", "/s/a.zip", 0, 0, none, .error "bad zip", .ok [], none⟩
        ⟨[], [], [], [], [], [], [], [], []⟩).2.archives,
        a.archive_id = "id1" → ¬a.status = "completed") :=
  C2_import_failure_atomic (fun _ => []) (fun _ _ _ _ => "h")
    ⟨"id1", "s1", "a.zip", "/s/a.zip", 0, 0, none, .error "bad zip", .ok [], none⟩
    ⟨[], [], [], [], [], [], [], [], []⟩
    (by simp) ⟨rfl, rfl, rfl, rfl, rfl, rfl, rfl, rfl⟩ rfl
    (Or.inl ⟨"bad zip", rfl⟩)

/-- Claim C3: (1) when an archive with the same fingerprint already
exists, the import returns `skipped` with the database unchanged — no
storage or parse
outcome in the environment is even consulted, and no row of any table is
created; (2) import preserves distinctness of the stored fingerprints, so at
most one archive per content fingerprint ever exists. -/
theorem C3_dedup (seg : Text → List Text) (hashFn : HashFn) (env : ImportEnv)
    (db : ImportDB) :
    ((∃ a ∈ db.archives, a.sha256 = env.sha256) →
        import_one_zip seg hashFn env db = (.skipped, db)) ∧
    ((db.archives.map fun a => a.sha256).Nodup →
        ((import_one_zip seg hashFn env db).2.archives.map fun a => a.sha256).Nodup) := by
  constructor
  · rintro ⟨a, ha, hs⟩
    have hany : (db.archives.any fun a => a.sha256 = env.sha256) = true := by
      rw [List.any_eq_true]
      exact ⟨a, ha, by simpa using hs⟩
    simp [import_one_zip, hany]
  · intro hnd
    by_cases hdup : (db.archives.any fun a => a.sha256 = env.sha256) = true
    · simpa [import_one_zip, hdup] using hnd
    · have hany : (db.archives.any fun a => a.sha256 = env.sha256) = false :=
        Bool.eq_false_iff.mpr hdup
      have hsha : ∀ a ∈ db.archives, ¬a.sha256 = env.sha256 := by
        rw [List.any_eq_false] at hany
        intro a ha
        simpa using hany a ha
      have hnotmem : env.sha256 ∉ db.archives.map fun a => a.sha256 := by
        intro hmem
        obtain ⟨a, ha, heq⟩ := List.mem_map.mp hmem
        exact hsha a ha heq
      have happend :
          ((db.archives.map fun a => a.sha256) ++ [env.sha256]).Nodup := by
        simp [List.nodup_append, hnd, hnotmem]
      rcases hc : env.copy_result with _ | cmsg
      · rcases hp : env.parse_result with pmsg | parsed
        · simp only [import_one_zip, hany, Bool.false_eq_true, if_false, hc, hp]
          rw [map_sha_of_update _ _ (fun a => by simp only [markFailed, markCompleted]; split <;> rfl), List.map_append]
          exact happend
        · rcases he : env.enum_result with emsg | atts
          · simp only [import_one_zip, hany, Bool.false_eq_true, if_false, hc, hp, he]
            rw [map_sha_of_update _ _ (fun a => by simp only [markFailed, markCompleted]; split <;> rfl), List.map_append]
            exact happend
          · rcases ht : env.tx_fail with _ | tmsg
            · simp only [import_one_zip, hany, Bool.false_eq_true, if_false, hc, hp, he, ht]
              rw [show ∀ parsed atts db1, (insertDerived seg hashFn env.archive_id
                  parsed atts db1).archives =
                  db1.archives.map (markCompleted env.archive_id) from
                fun parsed atts db1 => by
                simp [insertDerived, write_attachments_tx_archives]]
              rw [map_sha_of_update _ _ (fun a => by simp only [markFailed, markCompleted]; split <;> rfl), List.map_append]
              exact happend
            · simp only [import_one_zip, hany, Bool.false_eq_true, if_false, hc, hp, he, ht]
              rw [map_sha_of_update _ _ (fun a => by simp only [markFailed, markCompleted]; split <;> rfl), List.map_append]
              exact happend
      · simp only [import_one_zip, hany, Bool.false_eq_true, if_false, hc]
        exact hnd

/-- Witness for C3: a database already holding the fingerprint (part 1), and
a two-row distinct database (part 2). -/
theorem C3_dedup_witness :
    (import_one_zip (fun _ => []) (fun _ _ _ _ => "h")
        ⟨"id2", "s1", "b.zip", "/s/b.zip", 0, 0, none, .error "x", .ok [], none⟩
        ⟨[⟨"id1", "s1", "a.zip", "/s/a.zip", "store/id1/a.zip", 0, 0, "completed", none⟩],
         [], [], [], [], [], [], [], []⟩ =
      (.skipped,
       ⟨[⟨"id1", "s1", "a.zip", "/s/a.zip", "store/id1/a.zip", 0, 0, "completed", none⟩],
        [], [], [], [], [], [], [], []⟩)) ∧
    ((import_one_zip (fun _ => []) (fun _ _ _ _ => "h")
        ⟨"id2", "s2", "b.zip", "/s/b.zip", 0, 0, none, .error "x", .ok [], none⟩
        ⟨[⟨"id1", "s1", "a.zip", "/s/a.zip", "store/id1/a.zip", 0, 0, "completed", none⟩],
         [], [], [], [], [], [], [], []⟩).2.archives.map fun a => a.sha256).Nodup :=
  ⟨(C3_dedup (fun _ => []) (fun _ _ _ _ => "h")
      ⟨"id2", "s1", "b.zip", "/s/b.zip", 0, 0, none, .error "x", .ok [], none⟩
      ⟨[⟨"id1", "s1", "a.zip", "/s/a.zip", "store/id1/a.zip", 0, 0, "completed", none⟩],
       [], [], [], [], [], [], [], []⟩).1
     ⟨⟨"id1", "s1", "a.zip", "/s/a.zip", "store/id1/a.zip", 0, 0, "completed", none⟩,
      List.mem_singleton_self _, rfl⟩,
   (C3_dedup (fun _ => []) (fun _ _ _ _ => "h")
      ⟨"id2", "s2", "b.zip", "/s/b.zip", 0, 0, none, .error "x", .ok [], none⟩
      ⟨[⟨"id1", "s1", "a.zip", "/s/a.zip", "store/id1/a.zip", 0, 0, "completed", none⟩],
       [], [], [], [], [], [], [], []⟩).2 (by decide)⟩

end AV
